import Mathlib

/-!
Verification of the reconciliation pipeline of `src/app.py`
(`normalize_series`, `concat_no_delim`, `run_pipeline`).

Strings are modelled as `List Char` at the character level; tables as lists
of association-list rows together with a column list; a missing cell
(pandas `NaN`) is `Option.none`.
-/

set_option maxHeartbeats 1000000

namespace ExcelAnalyzer

/-- Whitespace characters: the set matched by the whitespace class of Python
regular expressions and stripped by `str.strip` (ASCII control whitespace,
space, the C1 separators, next-line, no-break space and the Unicode space
separators). -/
def pyIsSpace (c : Char) : Bool :=
  (9 ≤ c.toNat && c.toNat ≤ 13) || c.toNat == 32 || (28 ≤ c.toNat && c.toNat ≤ 31) ||
    c.toNat == 133 || c.toNat == 160 || c.toNat == 0x1680 ||
    (0x2000 ≤ c.toNat && c.toNat ≤ 0x200A) || c.toNat == 0x2028 || c.toNat == 0x2029 ||
    c.toNat == 0x202F || c.toNat == 0x205F || c.toNat == 0x3000

/-- ASCII case folding of a single character, modelling `str.lower`. -/
def pyToLower (c : Char) : Char :=
  if 65 ≤ c.toNat ∧ c.toNat ≤ 90 then Char.ofNat (c.toNat + 32) else c

/-- `s.str.replace(" ", " ", regex=False)`: every no-break space becomes
an ordinary space. -/
def replNBSP (l : List Char) : List Char :=
  l.map (fun c => if c = ' ' then ' ' else c)

/-- One pass of `s.str.replace(r"\s+", " ", regex=True)`: the Boolean state
records whether the previous character belonged to a whitespace run. -/
def collapseAux : Bool → List Char → List Char
  | _, [] => []
  | b, c :: cs =>
    if pyIsSpace c then
      if b then collapseAux true cs else ' ' :: collapseAux true cs
    else c :: collapseAux false cs

/-- `s.str.replace(r"\s+", " ", regex=True)`: every maximal whitespace run
becomes a single space. -/
def collapseWS (l : List Char) : List Char := collapseAux false l

/-- Left part of `str.strip`. -/
def lstripWS (l : List Char) : List Char := l.dropWhile pyIsSpace

/-- Right part of `str.strip`. -/
def rstripWS (l : List Char) : List Char := (l.reverse.dropWhile pyIsSpace).reverse

/-- `s.str.strip()`. -/
def stripWS (l : List Char) : List Char := lstripWS (rstripWS l)

/-- `s.str.lower()`. -/
def lowerL (l : List Char) : List Char := l.map pyToLower

/-- `normalize_series` of `app.py` on one already-stringified cell:
no-break spaces to spaces, whitespace runs collapsed, stripped, lower-cased. -/
def pyNormalize (l : List Char) : List Char :=
  lowerL (stripWS (collapseWS (replNBSP l)))

/-- `normalize_series` on a `String`. -/
def pyNormalizeStr (s : String) : String := (pyNormalize s.data).asString

/-- `str.lower` on a `String`. -/
def lowerStr (s : String) : String := (lowerL s.data).asString

/-- `str.strip` on a `String`. -/
def stripStr (s : String) : String := (stripWS s.data).asString

/-! ### Character-level lemmas -/

theorem toNat_ofNat_small (n : Nat) (h : n < 55296) : (Char.ofNat n).toNat = n := by
  unfold Char.ofNat
  rw [dif_pos (Or.inl h)]
  rfl

theorem pyToLower_toNat_of_upper {c : Char} (h : 65 ≤ c.toNat ∧ c.toNat ≤ 90) :
    (pyToLower c).toNat = c.toNat + 32 := by
  rw [pyToLower, if_pos h]
  exact toNat_ofNat_small _ (by omega)

theorem pyToLower_eq_self {c : Char} (h : ¬(65 ≤ c.toNat ∧ c.toNat ≤ 90)) :
    pyToLower c = c := by
  rw [pyToLower, if_neg h]

theorem pyIsSpace_iff (c : Char) :
    pyIsSpace c = true ↔ ((9 ≤ c.toNat ∧ c.toNat ≤ 13) ∨ c.toNat = 32 ∨
      (28 ≤ c.toNat ∧ c.toNat ≤ 31) ∨ c.toNat = 133 ∨ c.toNat = 160 ∨ c.toNat = 0x1680 ∨
      (0x2000 ≤ c.toNat ∧ c.toNat ≤ 0x200A) ∨ c.toNat = 0x2028 ∨ c.toNat = 0x2029 ∨
      c.toNat = 0x202F ∨ c.toNat = 0x205F ∨ c.toNat = 0x3000) := by
  simp only [pyIsSpace, Bool.or_eq_true, Bool.and_eq_true, decide_eq_true_eq, beq_iff_eq]
  tauto

theorem pyToLower_idem (c : Char) : pyToLower (pyToLower c) = pyToLower c := by
  by_cases h : 65 ≤ c.toNat ∧ c.toNat ≤ 90
  · have h2 := pyToLower_toNat_of_upper h
    exact pyToLower_eq_self (by omega)
  · rw [pyToLower_eq_self h]
    exact pyToLower_eq_self h

theorem pyIsSpace_pyToLower (c : Char) : pyIsSpace (pyToLower c) = pyIsSpace c := by
  by_cases h : 65 ≤ c.toNat ∧ c.toNat ≤ 90
  · have h2 := pyToLower_toNat_of_upper h
    rw [Bool.eq_iff_iff, pyIsSpace_iff, pyIsSpace_iff, h2]
    omega
  · rw [pyToLower_eq_self h]

theorem pyToLower_of_space {c : Char} (h : pyIsSpace c = true) : pyToLower c = c := by
  rw [pyIsSpace_iff] at h
  exact pyToLower_eq_self (by omega)

theorem space_char_pyIsSpace : pyIsSpace ' ' = true := by decide

theorem nbsp_pyIsSpace : pyIsSpace ' ' = true := by decide

theorem pyToLower_ne_nbsp {c : Char} (h : c ≠ ' ') : pyToLower c ≠ ' ' := by
  by_cases hu : 65 ≤ c.toNat ∧ c.toNat ≤ 90
  · have h2 := pyToLower_toNat_of_upper hu
    intro he
    rw [he] at h2
    simp only [show (' ').toNat = 160 from rfl] at h2
    omega
  · rw [pyToLower_eq_self hu]
    exact h

/-! ### Collapse / strip structure lemmas -/

theorem data_asString (l : List Char) : (List.asString l).data = l := rfl

/-- Lists fixed by `collapseAux b`: whitespace occurs only as a single
ordinary space, never two in a row, and (when `b = true`) never in front. -/
def okCollapse : Bool → List Char → Bool
  | _, [] => true
  | b, c :: cs =>
    if pyIsSpace c then !b && (c == ' ') && okCollapse true cs
    else okCollapse false cs

theorem mem_collapseAux {c : Char} (l : List Char) :
    ∀ b, c ∈ collapseAux b l → c = ' ' ∨ (c ∈ l ∧ pyIsSpace c = false) := by
  induction l with
  | nil => intro b h; exact absurd h (List.not_mem_nil c)
  | cons c' cs ih =>
    intro b h
    unfold collapseAux at h
    by_cases hs : pyIsSpace c'
    · rw [if_pos hs] at h
      cases b with
      | true =>
        rcases ih true h with h1 | h2
        · exact Or.inl h1
        · exact Or.inr ⟨List.mem_cons_of_mem _ h2.1, h2.2⟩
      | false =>
        rcases List.mem_cons.mp h with h1 | h1
        · exact Or.inl h1
        · rcases ih true h1 with h2 | h2
          · exact Or.inl h2
          · exact Or.inr ⟨List.mem_cons_of_mem _ h2.1, h2.2⟩
    · rw [if_neg hs] at h
      rcases List.mem_cons.mp h with h1 | h1
      · subst h1
        exact Or.inr ⟨List.mem_cons_self _ _, Bool.eq_false_iff.mpr hs⟩
      · rcases ih false h1 with h2 | h2
        · exact Or.inl h2
        · exact Or.inr ⟨List.mem_cons_of_mem _ h2.1, h2.2⟩

theorem okCollapse_collapseAux (l : List Char) : ∀ b, okCollapse b (collapseAux b l) = true := by
  induction l with
  | nil => intro b; rfl
  | cons c cs ih =>
    intro b
    unfold collapseAux
    by_cases hs : pyIsSpace c
    · rw [if_pos hs]
      cases b with
      | true => exact ih true
      | false =>
        show okCollapse false (' ' :: collapseAux true cs) = true
        unfold okCollapse
        rw [if_pos space_char_pyIsSpace]
        simp only [Bool.not_false, Bool.true_and, beq_self_eq_true, Bool.true_and]
        exact ih true
    · rw [if_neg hs]
      unfold okCollapse
      rw [if_neg hs]
      exact ih false

theorem okCollapse_of_true {l : List Char} (h : okCollapse true l = true) :
    okCollapse false l = true := by
  cases l with
  | nil => rfl
  | cons c cs =>
    unfold okCollapse at h ⊢
    by_cases hs : pyIsSpace c
    · rw [if_pos hs] at h
      simp at h
    · rw [if_neg hs] at h
      rw [if_neg hs]
      exact h

theorem okCollapse_append_left {t u : List Char} :
    ∀ b, okCollapse b (t ++ u) = true → okCollapse b t = true := by
  induction t with
  | nil => intro b _; rfl
  | cons c cs ih =>
    intro b h
    rw [List.cons_append] at h
    unfold okCollapse at h ⊢
    by_cases hs : pyIsSpace c
    · rw [if_pos hs] at h ⊢
      simp only [Bool.and_eq_true] at h ⊢
      exact ⟨h.1, ih true h.2⟩
    · rw [if_neg hs] at h ⊢
      exact ih false h

theorem okCollapse_append_right {t u : List Char} :
    ∀ b, okCollapse b (t ++ u) = true → okCollapse false u = true := by
  induction t with
  | nil =>
    intro b h
    cases b with
    | true => exact okCollapse_of_true h
    | false => exact h
  | cons c cs ih =>
    intro b h
    rw [List.cons_append] at h
    unfold okCollapse at h
    by_cases hs : pyIsSpace c
    · rw [if_pos hs] at h
      simp only [Bool.and_eq_true] at h
      exact ih true h.2
    · rw [if_neg hs] at h
      exact ih false h

theorem collapseAux_eq_self {l : List Char} :
    ∀ b, okCollapse b l = true → collapseAux b l = l := by
  induction l with
  | nil => intro b _; rfl
  | cons c cs ih =>
    intro b h
    unfold okCollapse at h
    unfold collapseAux
    by_cases hs : pyIsSpace c
    · rw [if_pos hs] at h ⊢
      simp only [Bool.and_eq_true, Bool.not_eq_true', beq_iff_eq] at h
      obtain ⟨⟨hb, hc⟩, hok⟩ := h
      subst hb
      rw [if_neg (by simp)]
      rw [hc, ih true hok]
    · rw [if_neg hs] at h ⊢
      rw [ih false h]

theorem head?_dropWhile_not {p : Char → Bool} (l : List Char) {c : Char}
    (h : (l.dropWhile p).head? = some c) : p c = false := by
  induction l with
  | nil => simp [List.dropWhile] at h
  | cons c' cs ih =>
    rw [List.dropWhile_cons] at h
    by_cases hp : p c'
    · rw [if_pos hp] at h
      exact ih h
    · rw [if_neg hp] at h
      simp only [List.head?_cons, Option.some.injEq] at h
      subst h
      exact Bool.eq_false_iff.mpr hp

theorem dropWhile_eq_self_of_head? {p : Char → Bool} {l : List Char}
    (h : ∀ c, l.head? = some c → p c = false) : l.dropWhile p = l := by
  cases l with
  | nil => rfl
  | cons c cs =>
    rw [List.dropWhile_cons, if_neg]
    rw [h c rfl]
    simp

theorem rstripWS_split (l : List Char) :
    l = rstripWS l ++ (l.reverse.takeWhile pyIsSpace).reverse ∧
      ∀ c ∈ (l.reverse.takeWhile pyIsSpace).reverse, pyIsSpace c = true := by
  constructor
  · have h := List.takeWhile_append_dropWhile pyIsSpace l.reverse
    have h2 := congrArg List.reverse h
    rw [List.reverse_append, List.reverse_reverse] at h2
    exact h2.symm
  · intro c hc
    exact List.mem_takeWhile_imp (List.mem_reverse.mp hc)

theorem getLast?_rstripWS (l : List Char) {c : Char}
    (h : (rstripWS l).getLast? = some c) : pyIsSpace c = false := by
  rw [rstripWS, List.getLast?_reverse] at h
  exact head?_dropWhile_not _ h

theorem lstripWS_split (l : List Char) : l = l.takeWhile pyIsSpace ++ lstripWS l :=
  (List.takeWhile_append_dropWhile pyIsSpace l).symm

/-- The characterization of strings already in normal form. -/
def normalCanon (l : List Char) : Prop :=
  (∀ c ∈ l, pyToLower c = c) ∧ (∀ c ∈ l, pyIsSpace c = true → c = ' ') ∧
    okCollapse false l = true ∧ (∀ c, l.head? = some c → pyIsSpace c = false) ∧
    (∀ c, l.getLast? = some c → pyIsSpace c = false)

theorem pyNormalize_eq_self {l : List Char} (h : normalCanon l) : pyNormalize l = l := by
  obtain ⟨hlow, hsp, hok, hhd, hlast⟩ := h
  have h1 : replNBSP l = l := by
    have hmap : ∀ c ∈ l, (if c = ' ' then ' ' else c) = c := by
      intro c hc
      by_cases he : c = ' '
      · exfalso
        have hs : pyIsSpace c = true := by rw [he]; exact nbsp_pyIsSpace
        have h2 := hsp c hc hs
        rw [he] at h2
        exact absurd h2 (by decide)
      · rw [if_neg he]
    rw [replNBSP, List.map_congr_left hmap]
    simp
  have h2 : collapseWS l = l := collapseAux_eq_self false hok
  have h3 : rstripWS l = l := by
    rw [rstripWS, dropWhile_eq_self_of_head?, List.reverse_reverse]
    intro c hc
    rw [List.head?_reverse] at hc
    exact hlast c hc
  have h4 : lstripWS l = l := by
    rw [lstripWS, dropWhile_eq_self_of_head? hhd]
  have h5 : lowerL l = l := by
    rw [lowerL, List.map_congr_left (fun c hc => hlow c hc)]
    simp
  rw [pyNormalize, h1, h2, stripWS, h3, h4, h5]

theorem mem_lstripWS {c : Char} {l : List Char} (h : c ∈ lstripWS l) : c ∈ l := by
  rw [lstripWS_split l]
  exact List.mem_append.mpr (Or.inr h)

theorem mem_rstripWS {c : Char} {l : List Char} (h : c ∈ rstripWS l) : c ∈ l := by
  rw [rstripWS] at h
  have h2 := List.mem_reverse.mp h
  have h3 : c ∈ l.reverse := by
    rw [← List.takeWhile_append_dropWhile pyIsSpace l.reverse]
    exact List.mem_append.mpr (Or.inr h2)
  exact List.mem_reverse.mp h3

theorem getLast?_lstripWS {l : List Char} {c : Char}
    (h : (lstripWS l).getLast? = some c) : l.getLast? = some c := by
  conv_lhs => rw [lstripWS_split l]
  rw [List.getLast?_append, h]
  rfl

theorem okCollapse_lowerL (l : List Char) : ∀ b, okCollapse b (lowerL l) = okCollapse b l := by
  induction l with
  | nil => intro b; rfl
  | cons c cs ih =>
    intro b
    show okCollapse b (pyToLower c :: lowerL cs) = okCollapse b (c :: cs)
    unfold okCollapse
    rw [pyIsSpace_pyToLower]
    by_cases hs : pyIsSpace c
    · rw [if_pos hs, if_pos hs, pyToLower_of_space hs, ih true]
    · rw [if_neg hs, if_neg hs]
      exact ih false

theorem normalCanon_pyNormalize (l : List Char) : normalCanon (pyNormalize l) := by
  have hvsp : ∀ c ∈ collapseWS (replNBSP l), pyIsSpace c = true → c = ' ' := by
    intro c hc hs
    rcases mem_collapseAux (replNBSP l) false hc with h | h
    · exact h
    · rw [h.2] at hs
      cases hs
  have hvok : okCollapse false (collapseWS (replNBSP l)) = true :=
    okCollapse_collapseAux (replNBSP l) false
  have hzok : okCollapse false (rstripWS (collapseWS (replNBSP l))) = true := by
    have hsplit := (rstripWS_split (collapseWS (replNBSP l))).1
    exact okCollapse_append_left false (hsplit ▸ hvok)
  have hzlast : ∀ c, (rstripWS (collapseWS (replNBSP l))).getLast? = some c →
      pyIsSpace c = false := fun c h => getLast?_rstripWS _ h
  have hwok : okCollapse false (stripWS (collapseWS (replNBSP l))) = true := by
    have hsplit := lstripWS_split (rstripWS (collapseWS (replNBSP l)))
    exact okCollapse_append_right false (hsplit ▸ hzok)
  have hwmem : ∀ c ∈ stripWS (collapseWS (replNBSP l)), c ∈ collapseWS (replNBSP l) :=
    fun c hc => mem_rstripWS (mem_lstripWS hc)
  have hwhd : ∀ c, (stripWS (collapseWS (replNBSP l))).head? = some c →
      pyIsSpace c = false := fun c h => head?_dropWhile_not _ h
  have hwlast : ∀ c, (stripWS (collapseWS (replNBSP l))).getLast? = some c →
      pyIsSpace c = false := fun c h => hzlast c (getLast?_lstripWS h)
  have hwsp : ∀ c ∈ stripWS (collapseWS (replNBSP l)), pyIsSpace c = true → c = ' ' :=
    fun c hc => hvsp c (hwmem c hc)
  show normalCanon (lowerL (stripWS (collapseWS (replNBSP l))))
  refine ⟨?_, ?_, ?_, ?_, ?_⟩
  · intro c' hc'
    rcases List.mem_map.mp hc' with ⟨c, _, hc⟩
    rw [← hc]
    exact pyToLower_idem c
  · intro c' hc' hs'
    rcases List.mem_map.mp hc' with ⟨c, hcm, hc⟩
    rw [← hc] at hs' ⊢
    rw [pyIsSpace_pyToLower] at hs'
    rw [hwsp c hcm hs']
    exact pyToLower_of_space space_char_pyIsSpace
  · rw [okCollapse_lowerL]
    exact hwok
  · intro c' h'
    rw [lowerL, List.head?_map] at h'
    cases hh : (stripWS (collapseWS (replNBSP l))).head? with
    | none => rw [hh] at h'; cases h'
    | some c =>
      rw [hh] at h'
      simp only [Option.map_some', Option.some.injEq] at h'
      rw [← h', pyIsSpace_pyToLower]
      exact hwhd c hh
  · intro c' h'
    rw [lowerL, List.getLast?_map] at h'
    cases hh : (stripWS (collapseWS (replNBSP l))).getLast? with
    | none => rw [hh] at h'; cases h'
    | some c =>
      rw [hh] at h'
      simp only [Option.map_some', Option.some.injEq] at h'
      rw [← h', pyIsSpace_pyToLower]
      exact hwlast c hh

/-- C4: normalization is idempotent: for every input string,
`normalize_series` applied twice agrees with `normalize_series` applied
once — `normalize(normalize(x)) = normalize(x)`. -/
theorem c4_normalize_idempotent (s : String) :
    pyNormalizeStr (pyNormalizeStr s) = pyNormalizeStr s := by
  simp only [pyNormalizeStr, data_asString]
  rw [pyNormalize_eq_self (normalCanon_pyNormalize s.data)]

/-! ### Table model and the pipeline of `run_pipeline` -/

def INV_AREA_COL : String := "Area Code"

def INV_BIN_STATUS_COL : String := "Bin Status"

def INV_HU_TYPE_COL : String := "HU Type"

def INV_QUALITY_COL : String := "Quality"

def INV_INCLUSION_COL : String := "Inclusion Status"

def INV_HU_CODE_COL : String := "HU Code"

def INV_SKU_COL : String := "Sku Code"

def INV_BATCH_COL : String := "Batch"

def CONV_INNER_HU_COL : String := "InnerHU"

def OUT_SKU_COL : String := "Sku"

def OUT_BATCH_COL : String := "Batch Allocated"

/-- A cell: `none` models a pandas missing value (NaN). -/
abbrev Cell := Option String

/-- A row: an association list from column name to cell. -/
abbrev TRow := List (String × Cell)

/-- A tabular input: column names plus rows. -/
structure Table where
  cols : List String
  rows : List TRow
  deriving DecidableEq

def getCell (r : TRow) (c : String) : Cell := (List.lookup c r).join

/-- `astype(str)`: a missing value prints as `"nan"`. -/
def astype_str (x : Cell) : String :=
  match x with
  | none => "nan"
  | some s => s

/-- `fillna("").astype(str)` followed by `normalize_series`, per cell. -/
def normalize_cell (x : Cell) : String := pyNormalizeStr (x.getD "")

/-- `concat_no_delim` of app.py per cell pair: normalize then concatenate
without a delimiter. -/
def concat_no_delim (a b : Cell) : String := normalize_cell a ++ normalize_cell b

def isPrefList : List Char → List Char → Bool
  | [], _ => true
  | _ :: _, [] => false
  | a :: as, b :: bs => a == b && isPrefList as bs

def hasSubList (needle : List Char) : List Char → Bool
  | [] => isPrefList needle []
  | c :: cs => isPrefList needle (c :: cs) || hasSubList needle cs

/-- `hay.str.contains(needle)` with a literal pattern. -/
def strContains (hay needle : String) : Bool := hasSubList needle.data hay.data

/-- `inv[inv[INV_AREA_COL].astype(str).str.lower().str.contains("partial", na=False)]`. -/
def filter_area (t : Table) : Table :=
  if INV_AREA_COL ∈ t.cols then
    { cols := t.cols,
      rows := t.rows.filter
        (fun r => strContains (lowerStr (astype_str (getCell r INV_AREA_COL))) "partial") }
  else t

/-- `inv[inv[INV_BIN_STATUS_COL].astype(str).str.lower() == "active"]`. -/
def filter_bin_status (t : Table) : Table :=
  if INV_BIN_STATUS_COL ∈ t.cols then
    { cols := t.cols,
      rows := t.rows.filter
        (fun r => lowerStr (astype_str (getCell r INV_BIN_STATUS_COL)) == "active") }
  else t

/-- `inv[inv[INV_HU_TYPE_COL].astype(str).str.lower() == "cartons"]`. -/
def filter_hu_type (t : Table) : Table :=
  if INV_HU_TYPE_COL ∈ t.cols then
    { cols := t.cols,
      rows := t.rows.filter
        (fun r => lowerStr (astype_str (getCell r INV_HU_TYPE_COL)) == "cartons") }
  else t

/-- `inv[inv[INV_QUALITY_COL].astype(str).str.lower() == "good"]`. -/
def filter_quality (t : Table) : Table :=
  if INV_QUALITY_COL ∈ t.cols then
    { cols := t.cols,
      rows := t.rows.filter
        (fun r => lowerStr (astype_str (getCell r INV_QUALITY_COL)) == "good") }
  else t

/-- `inv[inv[INV_INCLUSION_COL].astype(str).str.lower().str.contains("included", na=False)]`. -/
def filter_inclusion (t : Table) : Table :=
  if INV_INCLUSION_COL ∈ t.cols then
    { cols := t.cols,
      rows := t.rows.filter
        (fun r => strContains (lowerStr (astype_str (getCell r INV_INCLUSION_COL))) "included") }
  else t

/-- Step 2 of `run_pipeline`: the five inventory eligibility filters,
in source order. -/
def apply_inventory_filters (t : Table) : Table :=
  filter_inclusion (filter_quality (filter_hu_type (filter_bin_status (filter_area t))))

/-- Step 3: the `INV_KEY` column (empty when sku or batch is missing). -/
def inv_key (t : Table) (r : TRow) : String :=
  if INV_SKU_COL ∈ t.cols ∧ INV_BATCH_COL ∈ t.cols then
    concat_no_delim (getCell r INV_SKU_COL) (getCell r INV_BATCH_COL)
  else ""

/-- Step 4: the `HU_norm` column. -/
def hu_norm (t : Table) (r : TRow) : String :=
  if INV_HU_CODE_COL ∈ t.cols then normalize_cell (getCell r INV_HU_CODE_COL) else ""

/-- The fallback test `"inner" in c.lower() and "hu" in c.lower()`. -/
def inner_hu_fallback_match (c : String) : Bool :=
  strContains (lowerStr c) "inner" && strContains (lowerStr c) "hu"

/-- Step 5: the `INNER_norm` column of the conveyor table. -/
def inner_norm (conv : Table) (r : TRow) : String :=
  if CONV_INNER_HU_COL ∈ conv.cols then normalize_cell (getCell r CONV_INNER_HU_COL)
  else
    match conv.cols.filter inner_hu_fallback_match with
    | [] => ""
    | m :: _ => normalize_cell (getCell r m)

/-- `fed_set = set(conv["INNER_norm"].dropna().unique())`, as a duplicate-free
list. -/
def fed_set (conv : Table) : List String := (conv.rows.map (inner_norm conv)).dedup

/-- Step 6: the `OUT_KEY` column. -/
def out_key (out : Table) (r : TRow) : String :=
  if OUT_SKU_COL ∈ out.cols ∧ OUT_BATCH_COL ∈ out.cols then
    concat_no_delim (getCell r OUT_SKU_COL) (getCell r OUT_BATCH_COL)
  else ""

/-- Step 6: the `OUT_CONCAT` column (trim-only concatenation). -/
def out_concat (out : Table) (r : TRow) : String :=
  if OUT_SKU_COL ∈ out.cols ∧ OUT_BATCH_COL ∈ out.cols then
    stripStr ((getCell r OUT_SKU_COL).getD "") ++ stripStr ((getCell r OUT_BATCH_COL).getD "")
  else ""

/-- `demand_keys = set(out["OUT_KEY"].dropna().unique())`. -/
def demand_keys (out : Table) : List String := (out.rows.map (out_key out)).dedup

/-- `out_map.get(k, "")`: the first-occurrence `OUT_KEY -> OUT_CONCAT` map. -/
def out_map_lookup (out : Table) (k : String) : String :=
  match out.rows.find? (fun r => out_key out r == k) with
  | some r => out_concat out r
  | none => ""

/-- Steps 9/10: attach `Conveyor_HU` and `SBL Demand` and reindex the row to
the original inventory columns followed by the two derived columns. -/
def finalize_row (invCols : List String) (out : Table) (invTbl : Table) (r : TRow) : TRow :=
  (invCols.map (fun c => (c, getCell r c))) ++
    [("Conveyor_HU", some ""), ("SBL Demand", some (out_map_lookup out (inv_key invTbl r)))]

/-- The four summary counters of `run_pipeline`. -/
structure Counts where
  inventory_after_filters : Nat
  not_fed_count : Nat
  final_matched_count : Nat
  demand_keys : Nat
  deriving DecidableEq

/-- Step 7: the `not_fed` rows (`inv[inv["Is_Fed"] == False]`). -/
def not_fed_rows (inv_df conv_df : Table) : List TRow :=
  (apply_inventory_filters inv_df).rows.filter
    (fun r => !(decide (hu_norm (apply_inventory_filters inv_df) r ∈ fed_set conv_df)))

/-- Step 8: the `final` rows (`not_fed[not_fed["INV_KEY"].isin(demand_keys)]`). -/
def final_rows (inv_df conv_df out_df : Table) : List TRow :=
  (not_fed_rows inv_df conv_df).filter
    (fun r => decide (inv_key (apply_inventory_filters inv_df) r ∈ demand_keys out_df))

/-- `run_pipeline(inv_df, conv_df, out_df)` of app.py. -/
def run_pipeline (inv_df conv_df out_df : Table) : Table × Counts :=
  ({ cols := inv_df.cols ++ ["Conveyor_HU", "SBL Demand"],
     rows := (final_rows inv_df conv_df out_df).map
       (finalize_row inv_df.cols out_df (apply_inventory_filters inv_df)) },
   { inventory_after_filters := (apply_inventory_filters inv_df).rows.length,
     not_fed_count := (not_fed_rows inv_df conv_df).length,
     final_matched_count := (final_rows inv_df conv_df out_df).length,
     demand_keys := (demand_keys out_df).length })

/-! ### Pipeline structure lemmas -/

theorem cols_filter_area (t : Table) : (filter_area t).cols = t.cols := by
  unfold filter_area
  split <;> rfl

theorem cols_filter_bin_status (t : Table) : (filter_bin_status t).cols = t.cols := by
  unfold filter_bin_status
  split <;> rfl

theorem cols_filter_hu_type (t : Table) : (filter_hu_type t).cols = t.cols := by
  unfold filter_hu_type
  split <;> rfl

theorem cols_filter_quality (t : Table) : (filter_quality t).cols = t.cols := by
  unfold filter_quality
  split <;> rfl

theorem cols_filter_inclusion (t : Table) : (filter_inclusion t).cols = t.cols := by
  unfold filter_inclusion
  split <;> rfl

theorem cols_apply_inventory_filters (t : Table) :
    (apply_inventory_filters t).cols = t.cols := by
  rw [apply_inventory_filters, cols_filter_inclusion, cols_filter_quality,
    cols_filter_hu_type, cols_filter_bin_status, cols_filter_area]

theorem length_filter_area_le (t : Table) : (filter_area t).rows.length ≤ t.rows.length := by
  unfold filter_area
  split
  · exact List.length_filter_le _ _
  · exact le_refl _

theorem length_filter_bin_status_le (t : Table) :
    (filter_bin_status t).rows.length ≤ t.rows.length := by
  unfold filter_bin_status
  split
  · exact List.length_filter_le _ _
  · exact le_refl _

theorem length_filter_hu_type_le (t : Table) :
    (filter_hu_type t).rows.length ≤ t.rows.length := by
  unfold filter_hu_type
  split
  · exact List.length_filter_le _ _
  · exact le_refl _

theorem length_filter_quality_le (t : Table) :
    (filter_quality t).rows.length ≤ t.rows.length := by
  unfold filter_quality
  split
  · exact List.length_filter_le _ _
  · exact le_refl _

theorem length_filter_inclusion_le (t : Table) :
    (filter_inclusion t).rows.length ≤ t.rows.length := by
  unfold filter_inclusion
  split
  · exact List.length_filter_le _ _
  · exact le_refl _

theorem length_apply_inventory_filters_le (t : Table) :
    (apply_inventory_filters t).rows.length ≤ t.rows.length := by
  rw [apply_inventory_filters]
  exact le_trans (length_filter_inclusion_le _)
    (le_trans (length_filter_quality_le _)
      (le_trans (length_filter_hu_type_le _)
        (le_trans (length_filter_bin_status_le _) (length_filter_area_le t))))

theorem getCell_finalize_row {cs : List String} {c : String} (out invTbl : Table)
    (r : TRow) (h : c ∈ cs) :
    getCell (finalize_row cs out invTbl r) c = getCell r c := by
  induction cs with
  | nil => cases h
  | cons c0 cs ih =>
    show (List.lookup c ((c0, getCell r c0) :: finalize_row cs out invTbl r)).join = _
    rw [List.lookup]
    by_cases hc : c = c0
    · rw [beq_iff_eq.mpr hc]
      show (some (getCell r c0)).join = getCell r c
      rw [hc]
      rfl
    · rw [beq_eq_false_iff_ne.mpr hc]
      show (List.lookup c (finalize_row cs out invTbl r)).join = getCell r c
      exact ih ((List.mem_cons.mp h).resolve_left hc)

/-! ### Concrete tables (the spec's Scenario A and variants) -/

def tblInvA : Table :=
  { cols := ["Area Code", "Bin Status", "HU Type", "Quality", "Inclusion Status",
      "HU Code", "Sku Code", "Batch"],
    rows := [[("Area Code", some "Partial CLD"), ("Bin Status", some "Active"),
      ("HU Type", some "Cartons"), ("Quality", some "Good"),
      ("Inclusion Status", some "Included"), ("HU Code", some "HU1"),
      ("Sku Code", some "S1"), ("Batch", some "B1")]] }

def tblConvE : Table := { cols := ["InnerHU"], rows := [] }

def tblOutA : Table :=
  { cols := ["Sku", "Batch Allocated"],
    rows := [[("Sku", some "S1"), ("Batch Allocated", some "B1")]] }

def finalRowA : TRow :=
  [("Area Code", some "Partial CLD"), ("Bin Status", some "Active"),
    ("HU Type", some "Cartons"), ("Quality", some "Good"),
    ("Inclusion Status", some "Included"), ("HU Code", some "HU1"),
    ("Sku Code", some "S1"), ("Batch", some "B1"),
    ("Conveyor_HU", some ""), ("SBL Demand", some "S1B1")]

/-! ### Claims about the pipeline -/

/-- C10: the summary counters chain downwards: `final_matched_count ≤
not_fed_count ≤ inventory_after_filters ≤` the number of rows of the input
inventory table, because each stage selects a subset of the previous one. -/
theorem c10_counter_chain (i c o : Table) :
    (run_pipeline i c o).2.final_matched_count ≤ (run_pipeline i c o).2.not_fed_count ∧
      (run_pipeline i c o).2.not_fed_count ≤ (run_pipeline i c o).2.inventory_after_filters ∧
      (run_pipeline i c o).2.inventory_after_filters ≤ i.rows.length := by
  refine ⟨?_, ?_, ?_⟩
  · show (final_rows i c o).length ≤ (not_fed_rows i c).length
    rw [final_rows]
    exact List.length_filter_le _ _
  · show (not_fed_rows i c).length ≤ (apply_inventory_filters i).rows.length
    rw [not_fed_rows]
    exact List.length_filter_le _ _
  · exact length_apply_inventory_filters_le i

/-- C2: not-fed correctness: for every row of the final result table, the
normalized handling-unit identifier of that row (`normalize_series` of the
`HU Code` cell, empty when the column is absent) is not in the fed set
computed from the conveyor table. -/
theorem c2_final_not_in_fed_set (i c o : Table) :
    ∀ r ∈ (run_pipeline i c o).1.rows,
      (if INV_HU_CODE_COL ∈ i.cols then normalize_cell (getCell r INV_HU_CODE_COL) else "") ∉
        fed_set c := by
  intro r hr
  rcases List.mem_map.mp
    (show r ∈ (final_rows i c o).map (finalize_row i.cols o (apply_inventory_filters i))
      from hr) with ⟨r0, hr0, hfin⟩
  have hnf : r0 ∈ not_fed_rows i c := (List.mem_filter.mp hr0).1
  have hflag := (List.mem_filter.mp hnf).2
  simp only [Bool.not_eq_true', decide_eq_false_iff_not] at hflag
  have hid : (if INV_HU_CODE_COL ∈ i.cols then
      normalize_cell (getCell r INV_HU_CODE_COL) else "")
      = hu_norm (apply_inventory_filters i) r0 := by
    rw [hu_norm, cols_apply_inventory_filters]
    by_cases hin : INV_HU_CODE_COL ∈ i.cols
    · rw [if_pos hin, if_pos hin, ← hfin,
        getCell_finalize_row o (apply_inventory_filters i) r0 hin]
    · rw [if_neg hin, if_neg hin]
  rw [hid]
  exact hflag

/-- Witness for C2: the Scenario-A run has a final row, and its normalized
handling-unit id avoids the fed set. -/
theorem c2_final_not_in_fed_set_witness :
    (if INV_HU_CODE_COL ∈ tblInvA.cols then
      normalize_cell (getCell finalRowA INV_HU_CODE_COL) else "") ∉ fed_set tblConvE :=
  c2_final_not_in_fed_set tblInvA tblConvE tblOutA finalRowA (by decide)

/-- C3: demand correctness: for every row of the final result table, the
row's inventory composite key (normalized sku ++ normalized batch, no
delimiter; empty when either column is absent) is in the demand key set. -/
theorem c3_final_key_in_demand (i c o : Table) :
    ∀ r ∈ (run_pipeline i c o).1.rows,
      (if INV_SKU_COL ∈ i.cols ∧ INV_BATCH_COL ∈ i.cols then
        concat_no_delim (getCell r INV_SKU_COL) (getCell r INV_BATCH_COL)
      else "") ∈ demand_keys o := by
  intro r hr
  rcases List.mem_map.mp
    (show r ∈ (final_rows i c o).map (finalize_row i.cols o (apply_inventory_filters i))
      from hr) with ⟨r0, hr0, hfin⟩
  have hflag := (List.mem_filter.mp hr0).2
  simp only [decide_eq_true_eq] at hflag
  have hid : (if INV_SKU_COL ∈ i.cols ∧ INV_BATCH_COL ∈ i.cols then
      concat_no_delim (getCell r INV_SKU_COL) (getCell r INV_BATCH_COL) else "")
      = inv_key (apply_inventory_filters i) r0 := by
    rw [inv_key, cols_apply_inventory_filters]
    by_cases hin : INV_SKU_COL ∈ i.cols ∧ INV_BATCH_COL ∈ i.cols
    · rw [if_pos hin, if_pos hin, ← hfin,
        getCell_finalize_row o (apply_inventory_filters i) r0 hin.1,
        getCell_finalize_row o (apply_inventory_filters i) r0 hin.2]
    · rw [if_neg hin, if_neg hin]
  rw [hid]
  exact hflag

/-- Witness for C3 at the Scenario-A tables: the final row's key "s1b1" is a
demand key. -/
theorem c3_final_key_in_demand_witness :
    (if INV_SKU_COL ∈ tblInvA.cols ∧ INV_BATCH_COL ∈ tblInvA.cols then
      concat_no_delim (getCell finalRowA INV_SKU_COL) (getCell finalRowA INV_BATCH_COL)
    else "") ∈ demand_keys tblOutA :=
  c3_final_key_in_demand tblInvA tblConvE tblOutA finalRowA (by decide)

/-! ### C1: empty-key safety -/

def tblInvX : Table := { cols := ["X"], rows := [[("X", some "1")]] }

def tblOutEmptyKey : Table :=
  { cols := ["Sku", "Batch Allocated"],
    rows := [[("Sku", some " "), ("Batch Allocated", none)]] }

/-- Counterexample to C1 as stated: the sku column is absent from the
inventory table, yet a demand row whose sku/batch cells normalize to the
empty string gives the empty composite key a match: the final result has
one row, not zero. -/
theorem c1_counterexample :
    INV_SKU_COL ∉ tblInvX.cols ∧
      (run_pipeline tblInvX tblConvE tblOutEmptyKey).1.rows.length = 1 := by decide

/-- C1 (amended): if the configured sku or batch column is absent from the
inventory table or from the demand table, the final result has zero rows
provided the empty string is not a member of the demand key set (the code
does not special-case empty keys, so a demand key set containing `""` can
still match the empty inventory key). -/
theorem c1_empty_key_guarded (i c o : Table)
    (hmiss : INV_SKU_COL ∉ i.cols ∨ INV_BATCH_COL ∉ i.cols ∨
      OUT_SKU_COL ∉ o.cols ∨ OUT_BATCH_COL ∉ o.cols)
    (hne : "" ∉ demand_keys o) :
    (run_pipeline i c o).1.rows = [] := by
  have hfinal : final_rows i c o = [] := by
    rw [final_rows, List.filter_eq_nil_iff]
    intro r0 _
    simp only [decide_eq_true_eq]
    rcases hmiss with hm | hm | hm | hm
    · intro hmem
      rw [inv_key, cols_apply_inventory_filters, if_neg (fun hand => hm hand.1)] at hmem
      exact hne hmem
    · intro hmem
      rw [inv_key, cols_apply_inventory_filters, if_neg (fun hand => hm hand.2)] at hmem
      exact hne hmem
    all_goals
      intro hmem
      rcases List.mem_map.mp (List.mem_dedup.mp hmem) with ⟨rd, _, hk⟩
      rw [out_key] at hk
      rw [if_neg (by intro hand; first | exact hm hand.1 | exact hm hand.2)] at hk
      exact hne (hk ▸ hmem)
  show (final_rows i c o).map _ = []
  rw [hfinal]
  rfl

/-- Witness for C1 (amended): sku column missing and no empty demand key
give an empty result. -/
theorem c1_empty_key_guarded_witness :
    (run_pipeline tblInvX tblConvE tblOutA).1.rows = [] :=
  c1_empty_key_guarded tblInvX tblConvE tblOutA (Or.inl (by decide)) (by decide)

/-! ### C6: fed-set resolution -/

def tblConvNoCol : Table := { cols := ["X"], rows := [[("X", some "y")]] }

def tblInvNoHU : Table :=
  { cols := ["Area Code", "Bin Status", "HU Type", "Quality", "Inclusion Status",
      "Sku Code", "Batch"],
    rows := [[("Area Code", some "Partial CLD"), ("Bin Status", some "Active"),
      ("HU Type", some "Cartons"), ("Quality", some "Good"),
      ("Inclusion Status", some "Included"),
      ("Sku Code", some "S1"), ("Batch", some "B1")]] }

/-- Counterexample to C6 as stated: with no inner-hu column and a nonempty
conveyor table, the fed set is the singleton `{""}`, not the empty set, and
an inventory unit with empty normalized HU code is excluded as fed: the run
returns no rows although the same inventory with an empty conveyor table
returns one. -/
theorem c6_counterexample :
    CONV_INNER_HU_COL ∉ tblConvNoCol.cols ∧
      tblConvNoCol.cols.filter inner_hu_fallback_match = [] ∧
      fed_set tblConvNoCol = [""] ∧
      (run_pipeline tblInvNoHU tblConvNoCol tblOutA).1.rows.length = 0 ∧
      (run_pipeline tblInvNoHU tblConvE tblOutA).1.rows.length = 1 := by decide

theorem dedup_const_empty (l : List TRow) :
    (l.map (fun _ => ("" : String))).dedup = if l.isEmpty then [] else [""] := by
  induction l with
  | nil => rfl
  | cons r rs ih =>
    show (("" : String) :: rs.map (fun _ => ("" : String))).dedup = _
    by_cases he : rs = []
    · subst he
      rfl
    · rw [List.dedup_cons_of_mem, ih]
      · rw [if_neg (by simp [he]), if_neg (by simp)]
      · rcases List.exists_cons_of_ne_nil he with ⟨r2, rs2, hrs⟩
        subst hrs
        exact List.mem_cons_self _ _

/-- C6 (amended): fed-set resolution: the exactly-named inner-hu column is
used when present; otherwise the first fallback column whose lowered name
contains both "inner" and "hu"; and if no such column exists every row
yields the empty string, so the fed set is `{""}` whenever the conveyor
table has rows (it is the empty set only for a rowless conveyor table), and
units whose normalized HU code is empty are then excluded as fed. -/
theorem c6_fed_set_resolution (conv : Table) :
    (CONV_INNER_HU_COL ∈ conv.cols →
      fed_set conv =
        (conv.rows.map (fun r => normalize_cell (getCell r CONV_INNER_HU_COL))).dedup) ∧
    (∀ m ms, CONV_INNER_HU_COL ∉ conv.cols →
      conv.cols.filter inner_hu_fallback_match = m :: ms →
      fed_set conv = (conv.rows.map (fun r => normalize_cell (getCell r m))).dedup) ∧
    (CONV_INNER_HU_COL ∉ conv.cols →
      conv.cols.filter inner_hu_fallback_match = [] →
      fed_set conv = if conv.rows.isEmpty then [] else [""]) := by
  refine ⟨?_, ?_, ?_⟩
  · intro hin
    rw [fed_set]
    congr 1
    apply List.map_congr_left
    intro r _
    rw [inner_norm, if_pos hin]
  · intro m ms hnin hm
    rw [fed_set]
    congr 1
    apply List.map_congr_left
    intro r _
    rw [inner_norm, if_neg hnin, hm]
  · intro hnin hm
    rw [fed_set]
    have hc : conv.rows.map (inner_norm conv) = conv.rows.map (fun _ => "") := by
      apply List.map_congr_left
      intro r _
      rw [inner_norm, if_neg hnin, hm]
    rw [hc, dedup_const_empty]

/-- Witness for C6 (amended) at a conveyor table with no matching column
and one row: the fed set evaluates to `[""]`. -/
theorem c6_fed_set_resolution_witness :
    fed_set tblConvNoCol = if tblConvNoCol.rows.isEmpty then [] else [""] :=
  (c6_fed_set_resolution tblConvNoCol).2.2 (by decide) (by decide)

/-! ### C7: graceful degradation on missing columns -/

/-- C7: graceful degradation: a filter whose backing column is absent from
the table is a pass-through, and a missing sku/batch or HU-code column
yields empty derived keys; `run_pipeline` is a total function, so no
invocation fails on an absent configured column. -/
theorem c7_missing_columns_degrade (t : Table) (r : TRow) :
    (INV_AREA_COL ∉ t.cols → filter_area t = t) ∧
      (INV_BIN_STATUS_COL ∉ t.cols → filter_bin_status t = t) ∧
      (INV_HU_TYPE_COL ∉ t.cols → filter_hu_type t = t) ∧
      (INV_QUALITY_COL ∉ t.cols → filter_quality t = t) ∧
      (INV_INCLUSION_COL ∉ t.cols → filter_inclusion t = t) ∧
      (INV_SKU_COL ∉ t.cols ∨ INV_BATCH_COL ∉ t.cols → inv_key t r = "") ∧
      (INV_HU_CODE_COL ∉ t.cols → hu_norm t r = "") ∧
      (OUT_SKU_COL ∉ t.cols ∨ OUT_BATCH_COL ∉ t.cols → out_key t r = "") := by
  refine ⟨?_, ?_, ?_, ?_, ?_, ?_, ?_, ?_⟩
  · intro h
    rw [filter_area, if_neg h]
  · intro h
    rw [filter_bin_status, if_neg h]
  · intro h
    rw [filter_hu_type, if_neg h]
  · intro h
    rw [filter_quality, if_neg h]
  · intro h
    rw [filter_inclusion, if_neg h]
  · intro h
    rw [inv_key, if_neg (by tauto)]
  · intro h
    rw [hu_norm, if_neg h]
  · intro h
    rw [out_key, if_neg (by tauto)]

/-- Witness for C7 at a table having none of the configured columns. -/
theorem c7_missing_columns_degrade_witness :
    filter_area tblInvX = tblInvX ∧ filter_bin_status tblInvX = tblInvX ∧
      filter_hu_type tblInvX = tblInvX ∧ filter_quality tblInvX = tblInvX ∧
      filter_inclusion tblInvX = tblInvX ∧ inv_key tblInvX [] = "" ∧
      hu_norm tblInvX [] = "" ∧ out_key tblInvX [] = "" := by
  have h := c7_missing_columns_degrade tblInvX []
  exact ⟨h.1 (by decide), h.2.1 (by decide), h.2.2.1 (by decide), h.2.2.2.1 (by decide),
    h.2.2.2.2.1 (by decide), h.2.2.2.2.2.1 (Or.inl (by decide)),
    h.2.2.2.2.2.2.1 (by decide), h.2.2.2.2.2.2.2 (Or.inl (by decide))⟩

/-! ### C8: no expiry predicate exists -/

def rowInvExp : TRow :=
  [("Area Code", some "Partial CLD"), ("Bin Status", some "Active"),
    ("HU Type", some "Cartons"), ("Quality", some "Good"),
    ("Inclusion Status", some "Included"), ("HU Code", some "HU1"),
    ("Sku Code", some "S1"), ("Batch", some "B1"), ("Expiry", some "expired")]

def tblInvExp : Table :=
  { cols := ["Area Code", "Bin Status", "HU Type", "Quality", "Inclusion Status",
      "HU Code", "Sku Code", "Batch", "Expiry"],
    rows := [rowInvExp] }

/-- Counterexample to C8: the eligibility filter contains no expiry
predicate: a row whose `Expiry` cell reads "expired" passes the filter and
reaches the final result. -/
theorem c8_counterexample :
    "Expiry" ∈ tblInvExp.cols ∧
      (∀ r ∈ tblInvExp.rows, getCell r "Expiry" = some "expired") ∧
      (run_pipeline tblInvExp tblConvE tblOutA).2.final_matched_count = 1 := by decide

/-- C8 (amended): the eligibility filter applies exactly the five
predicates (area contains "partial", bin status = "active", HU type =
"cartons", quality = "good", inclusion contains "included") and no expiry
predicate: every row satisfying those five tests survives filtering,
whatever any expiry field holds. -/
theorem c8_no_expiry_predicate (t : Table) (r : TRow) (hr : r ∈ t.rows)
    (h1 : strContains (lowerStr (astype_str (getCell r INV_AREA_COL))) "partial" = true)
    (h2 : lowerStr (astype_str (getCell r INV_BIN_STATUS_COL)) = "active")
    (h3 : lowerStr (astype_str (getCell r INV_HU_TYPE_COL)) = "cartons")
    (h4 : lowerStr (astype_str (getCell r INV_QUALITY_COL)) = "good")
    (h5 : strContains (lowerStr (astype_str (getCell r INV_INCLUSION_COL))) "included" = true) :
    r ∈ (apply_inventory_filters t).rows := by
  have s1 : ∀ t' : Table, r ∈ t'.rows → r ∈ (filter_area t').rows := by
    intro t' h
    rw [filter_area]
    split
    · exact List.mem_filter.mpr ⟨h, h1⟩
    · exact h
  have s2 : ∀ t' : Table, r ∈ t'.rows → r ∈ (filter_bin_status t').rows := by
    intro t' h
    rw [filter_bin_status]
    split
    · exact List.mem_filter.mpr ⟨h, beq_iff_eq.mpr h2⟩
    · exact h
  have s3 : ∀ t' : Table, r ∈ t'.rows → r ∈ (filter_hu_type t').rows := by
    intro t' h
    rw [filter_hu_type]
    split
    · exact List.mem_filter.mpr ⟨h, beq_iff_eq.mpr h3⟩
    · exact h
  have s4 : ∀ t' : Table, r ∈ t'.rows → r ∈ (filter_quality t').rows := by
    intro t' h
    rw [filter_quality]
    split
    · exact List.mem_filter.mpr ⟨h, beq_iff_eq.mpr h4⟩
    · exact h
  have s5 : ∀ t' : Table, r ∈ t'.rows → r ∈ (filter_inclusion t').rows := by
    intro t' h
    rw [filter_inclusion]
    split
    · exact List.mem_filter.mpr ⟨h, h5⟩
    · exact h
  exact s5 _ (s4 _ (s3 _ (s2 _ (s1 _ hr))))

/-- Witness for C8 (amended): the "expired" row survives the eligibility
filter. -/
theorem c8_no_expiry_predicate_witness :
    rowInvExp ∈ (apply_inventory_filters tblInvExp).rows :=
  c8_no_expiry_predicate tblInvExp rowInvExp (by decide) (by decide) (by decide)
    (by decide) (by decide) (by decide)

/-! ### C9: empty inputs -/

def tblEmpty : Table := { cols := [], rows := [] }

/-- Counterexample to C9 as stated: the conveyor table has zero rows, yet
the pipeline returns a one-row result and the counters (1, 1, 1, 1), not an
empty result with zero counters. -/
theorem c9_counterexample :
    tblConvE.rows = [] ∧
      (run_pipeline tblInvA tblConvE tblOutA).1.rows.length = 1 ∧
      (run_pipeline tblInvA tblConvE tblOutA).2 =
        { inventory_after_filters := 1, not_fed_count := 1,
          final_matched_count := 1, demand_keys := 1 } := by decide

theorem rows_nil_filter_area {t : Table} (h : t.rows = []) : (filter_area t).rows = [] := by
  rw [filter_area]
  split
  · rw [h]
    rfl
  · exact h

theorem rows_nil_filter_bin_status {t : Table} (h : t.rows = []) :
    (filter_bin_status t).rows = [] := by
  rw [filter_bin_status]
  split
  · rw [h]
    rfl
  · exact h

theorem rows_nil_filter_hu_type {t : Table} (h : t.rows = []) :
    (filter_hu_type t).rows = [] := by
  rw [filter_hu_type]
  split
  · rw [h]
    rfl
  · exact h

theorem rows_nil_filter_quality {t : Table} (h : t.rows = []) :
    (filter_quality t).rows = [] := by
  rw [filter_quality]
  split
  · rw [h]
    rfl
  · exact h

theorem rows_nil_filter_inclusion {t : Table} (h : t.rows = []) :
    (filter_inclusion t).rows = [] := by
  rw [filter_inclusion]
  split
  · rw [h]
    rfl
  · exact h

theorem rows_nil_apply_inventory_filters {t : Table} (h : t.rows = []) :
    (apply_inventory_filters t).rows = [] := by
  rw [apply_inventory_filters]
  exact rows_nil_filter_inclusion (rows_nil_filter_quality (rows_nil_filter_hu_type
    (rows_nil_filter_bin_status (rows_nil_filter_area h))))

/-- C9 (amended): empty inputs are not an error — the pipeline is total; an
empty inventory table gives an empty result and zero
inventory_after_filters, not_fed_count and final_matched_count; an empty
demand table gives an empty result and zero final_matched_count and
demand_keys. (An empty conveyor table alone does not force an empty result
or zero counters.) -/
theorem c9_empty_inputs (i c o : Table) :
    (i.rows = [] →
      (run_pipeline i c o).1.rows = [] ∧
        (run_pipeline i c o).2.inventory_after_filters = 0 ∧
        (run_pipeline i c o).2.not_fed_count = 0 ∧
        (run_pipeline i c o).2.final_matched_count = 0) ∧
    (o.rows = [] →
      (run_pipeline i c o).1.rows = [] ∧
        (run_pipeline i c o).2.final_matched_count = 0 ∧
        (run_pipeline i c o).2.demand_keys = 0) := by
  constructor
  · intro h
    have hfil : (apply_inventory_filters i).rows = [] := rows_nil_apply_inventory_filters h
    have hnf : not_fed_rows i c = [] := by
      rw [not_fed_rows, hfil]
      rfl
    have hfin : final_rows i c o = [] := by
      rw [final_rows, hnf]
      rfl
    refine ⟨?_, ?_, ?_, ?_⟩
    · show (final_rows i c o).map _ = []
      rw [hfin]
      rfl
    · show (apply_inventory_filters i).rows.length = 0
      rw [hfil]
      rfl
    · show (not_fed_rows i c).length = 0
      rw [hnf]
      rfl
    · show (final_rows i c o).length = 0
      rw [hfin]
      rfl
  · intro h
    have hdk : demand_keys o = [] := by
      rw [demand_keys, h]
      rfl
    have hfin : final_rows i c o = [] := by
      rw [final_rows, List.filter_eq_nil_iff]
      intro r0 _
      rw [hdk]
      simp
    refine ⟨?_, ?_, ?_⟩
    · show (final_rows i c o).map _ = []
      rw [hfin]
      rfl
    · show (final_rows i c o).length = 0
      rw [hfin]
      rfl
    · show (demand_keys o).length = 0
      rw [hdk]
      rfl

/-- Witness for C9 (amended) at concrete empty inventory and empty demand
tables. -/
theorem c9_empty_inputs_witness :
    ((run_pipeline tblEmpty tblConvNoCol tblOutA).1.rows = [] ∧
      (run_pipeline tblEmpty tblConvNoCol tblOutA).2.inventory_after_filters = 0 ∧
      (run_pipeline tblEmpty tblConvNoCol tblOutA).2.not_fed_count = 0 ∧
      (run_pipeline tblEmpty tblConvNoCol tblOutA).2.final_matched_count = 0) ∧
    ((run_pipeline tblInvA tblConvE tblEmpty).1.rows = [] ∧
      (run_pipeline tblInvA tblConvE tblEmpty).2.final_matched_count = 0 ∧
      (run_pipeline tblInvA tblConvE tblEmpty).2.demand_keys = 0) :=
  ⟨(c9_empty_inputs tblEmpty tblConvNoCol tblOutA).1 rfl,
    (c9_empty_inputs tblInvA tblConvE tblEmpty).2 rfl⟩

/-! ### Case-folding commutes with every normalization stage -/

theorem replNBSP_lowerL (l : List Char) : replNBSP (lowerL l) = lowerL (replNBSP l) := by
  rw [replNBSP, lowerL, lowerL, replNBSP, List.map_map, List.map_map]
  apply List.map_congr_left
  intro c _
  simp only [Function.comp_apply]
  by_cases hc : c = ' '
  · rw [hc, pyToLower_of_space nbsp_pyIsSpace, if_pos rfl, pyToLower_of_space space_char_pyIsSpace]
  · rw [if_neg hc, if_neg (pyToLower_ne_nbsp hc)]

theorem collapseAux_lowerL (l : List Char) :
    ∀ b, collapseAux b (lowerL l) = lowerL (collapseAux b l) := by
  induction l with
  | nil => intro b; rfl
  | cons c cs ih =>
    intro b
    show collapseAux b (pyToLower c :: lowerL cs) = lowerL (collapseAux b (c :: cs))
    unfold collapseAux
    rw [pyIsSpace_pyToLower]
    by_cases hs : pyIsSpace c
    · rw [if_pos hs, if_pos hs]
      cases b with
      | true => exact ih true
      | false =>
        show ' ' :: collapseAux true (lowerL cs) = lowerL (' ' :: collapseAux true cs)
        show ' ' :: collapseAux true (lowerL cs) = pyToLower ' ' :: lowerL (collapseAux true cs)
        rw [pyToLower_of_space space_char_pyIsSpace, ih true]
    · rw [if_neg hs, if_neg hs]
      show pyToLower c :: collapseAux false (lowerL cs) = pyToLower c :: lowerL (collapseAux false cs)
      rw [ih false]

theorem dropWhile_lowerL (l : List Char) :
    (lowerL l).dropWhile pyIsSpace = lowerL (l.dropWhile pyIsSpace) := by
  induction l with
  | nil => rfl
  | cons c cs ih =>
    show (pyToLower c :: lowerL cs).dropWhile pyIsSpace = _
    rw [List.dropWhile_cons, List.dropWhile_cons, pyIsSpace_pyToLower]
    by_cases hs : pyIsSpace c
    · rw [if_pos hs, if_pos hs, ih]
    · rw [if_neg hs, if_neg hs]
      rfl

theorem reverse_lowerL (l : List Char) : (lowerL l).reverse = lowerL l.reverse :=
  (List.map_reverse pyToLower l).symm

theorem rstripWS_lowerL (l : List Char) : rstripWS (lowerL l) = lowerL (rstripWS l) := by
  rw [rstripWS, rstripWS, reverse_lowerL, dropWhile_lowerL, ← reverse_lowerL]

theorem stripWS_lowerL (l : List Char) : stripWS (lowerL l) = lowerL (stripWS l) := by
  rw [stripWS, stripWS, rstripWS_lowerL, lstripWS, lstripWS, dropWhile_lowerL]

theorem lowerL_idem (l : List Char) : lowerL (lowerL l) = lowerL l := by
  rw [lowerL, lowerL, List.map_map]
  apply List.map_congr_left
  intro c _
  exact pyToLower_idem c

theorem pyNormalize_lowerL (l : List Char) : pyNormalize (lowerL l) = pyNormalize l := by
  rw [pyNormalize, pyNormalize, replNBSP_lowerL]
  have h1 : collapseWS (lowerL (replNBSP l)) = lowerL (collapseWS (replNBSP l)) :=
    collapseAux_lowerL _ false
  rw [h1, stripWS_lowerL, lowerL_idem]

theorem pyNormalize_lower_congr {s t : List Char} (h : lowerL s = lowerL t) :
    pyNormalize s = pyNormalize t := by
  rw [← pyNormalize_lowerL s, h, pyNormalize_lowerL]

/-! ### Surrounding whitespace is removed by normalization -/

theorem collapseAux_cons_space_true {c : Char} (hs : pyIsSpace c = true) (cs : List Char) :
    collapseAux true (c :: cs) = collapseAux true cs := by
  simp only [collapseAux, hs, if_true]

theorem collapseAux_cons_space_false {c : Char} (hs : pyIsSpace c = true) (cs : List Char) :
    collapseAux false (c :: cs) = ' ' :: collapseAux true cs := by
  simp only [collapseAux, hs, if_true]
  rw [if_neg Bool.false_ne_true]

theorem collapseAux_cons_nonspace {c : Char} (hs : pyIsSpace c = false) (b : Bool)
    (cs : List Char) : collapseAux b (c :: cs) = c :: collapseAux false cs := by
  simp only [collapseAux, hs]
  rfl

theorem collapseAux_true_allspace {v : List Char} (hv : ∀ ch ∈ v, pyIsSpace ch = true) :
    collapseAux true v = [] := by
  induction v with
  | nil => rfl
  | cons c cs ih =>
    rw [collapseAux_cons_space_true (hv c (List.mem_cons_self _ _))]
    exact ih (fun ch hch => hv ch (List.mem_cons_of_mem _ hch))

theorem collapseAux_true_append_allspace {u : List Char}
    (hu : ∀ ch ∈ u, pyIsSpace ch = true) (x : List Char) :
    collapseAux true (u ++ x) = collapseAux true x := by
  induction u with
  | nil => rfl
  | cons c cs ih =>
    rw [List.cons_append, collapseAux_cons_space_true (hu c (List.mem_cons_self _ _))]
    exact ih (fun ch hch => hu ch (List.mem_cons_of_mem _ hch))

theorem collapseAux_false_append_allspace {u : List Char}
    (hu : ∀ ch ∈ u, pyIsSpace ch = true) (hne : u ≠ []) (x : List Char) :
    collapseAux false (u ++ x) = ' ' :: collapseAux true x := by
  cases u with
  | nil => exact absurd rfl hne
  | cons c cs =>
    rw [List.cons_append, collapseAux_cons_space_false (hu c (List.mem_cons_self _ _)),
      collapseAux_true_append_allspace (fun ch hch => hu ch (List.mem_cons_of_mem _ hch))]

theorem collapseAux_false_cases (x : List Char) :
    collapseAux false x = collapseAux true x ∨
      collapseAux false x = ' ' :: collapseAux true x := by
  cases x with
  | nil => exact Or.inl rfl
  | cons c cs =>
    by_cases hs : pyIsSpace c
    · refine Or.inr ?_
      rw [collapseAux_cons_space_false hs, collapseAux_cons_space_true hs]
    · have hs' : pyIsSpace c = false := Bool.eq_false_iff.mpr hs
      refine Or.inl ?_
      rw [collapseAux_cons_nonspace hs' false, collapseAux_cons_nonspace hs' true]

theorem stripWS_cons_space (m : List Char) : stripWS (' ' :: m) = stripWS m := by
  rw [stripWS, stripWS, rstripWS, rstripWS]
  have h1 : (' ' :: m).reverse = m.reverse ++ [' '] := by simp
  rw [h1, List.dropWhile_append]
  by_cases he : (m.reverse.dropWhile pyIsSpace).isEmpty
  · rw [if_pos he]
    have h2 : ([' '] : List Char).dropWhile pyIsSpace = [] := rfl
    rw [h2, List.isEmpty_iff.mp he]
  · rw [if_neg he, List.reverse_append]
    show lstripWS (' ' :: (m.reverse.dropWhile pyIsSpace).reverse) = _
    rw [lstripWS, lstripWS, List.dropWhile_cons, if_pos space_char_pyIsSpace]

theorem rstripWS_append_space (m : List Char) : rstripWS (m ++ [' ']) = rstripWS m := by
  rw [rstripWS, rstripWS, List.reverse_append]
  show ((' ' :: m.reverse).dropWhile pyIsSpace).reverse = _
  rw [List.dropWhile_cons, if_pos space_char_pyIsSpace]

theorem stripWS_append_space (m : List Char) : stripWS (m ++ [' ']) = stripWS m := by
  rw [stripWS, stripWS, rstripWS_append_space]

theorem collapseAux_append_allspace_cases {v : List Char}
    (hv : ∀ ch ∈ v, pyIsSpace ch = true) (x : List Char) :
    ∀ b, collapseAux b (x ++ v) = collapseAux b x ∨
      collapseAux b (x ++ v) = collapseAux b x ++ [' '] := by
  induction x with
  | nil =>
    intro b
    rw [List.nil_append]
    cases b with
    | true => exact Or.inl (collapseAux_true_allspace hv)
    | false =>
      cases v with
      | nil => exact Or.inl rfl
      | cons c cs =>
        refine Or.inr ?_
        rw [collapseAux_cons_space_false (hv c (List.mem_cons_self _ _)),
          collapseAux_true_allspace (fun ch hch => hv ch (List.mem_cons_of_mem _ hch))]
        rfl
  | cons c cs ih =>
    intro b
    rw [List.cons_append]
    by_cases hs : pyIsSpace c
    · cases b with
      | true =>
        rw [collapseAux_cons_space_true hs, collapseAux_cons_space_true hs]
        exact ih true
      | false =>
        rw [collapseAux_cons_space_false hs, collapseAux_cons_space_false hs]
        rcases ih true with h | h
        · exact Or.inl (by rw [h])
        · refine Or.inr ?_
          rw [h]
          rfl
    · have hs' : pyIsSpace c = false := Bool.eq_false_iff.mpr hs
      rw [collapseAux_cons_nonspace hs' b, collapseAux_cons_nonspace hs' b]
      rcases ih false with h | h
      · exact Or.inl (by rw [h])
      · refine Or.inr ?_
        rw [h]
        rfl

theorem stripcollapse_append_right {v : List Char}
    (hv : ∀ ch ∈ v, pyIsSpace ch = true) (x : List Char) :
    stripWS (collapseWS (x ++ v)) = stripWS (collapseWS x) := by
  rcases collapseAux_append_allspace_cases hv x false with h | h
  · rw [collapseWS, collapseWS, h]
  · rw [collapseWS, collapseWS, h, stripWS_append_space]

theorem stripcollapse_append_left {u : List Char}
    (hu : ∀ ch ∈ u, pyIsSpace ch = true) (x : List Char) :
    stripWS (collapseWS (u ++ x)) = stripWS (collapseWS x) := by
  by_cases hne : u = []
  · rw [hne, List.nil_append]
  · rw [collapseWS, collapseAux_false_append_allspace hu hne, stripWS_cons_space]
    rcases collapseAux_false_cases x with h | h
    · rw [collapseWS, h]
    · rw [collapseWS, h, stripWS_cons_space]

theorem allspace_replNBSP {u : List Char} (hu : ∀ ch ∈ u, pyIsSpace ch = true) :
    ∀ ch ∈ replNBSP u, pyIsSpace ch = true := by
  intro ch hch
  rcases List.mem_map.mp hch with ⟨c, hc, he⟩
  rw [← he]
  split
  · exact space_char_pyIsSpace
  · exact hu c hc

theorem replNBSP_append (a b : List Char) : replNBSP (a ++ b) = replNBSP a ++ replNBSP b :=
  List.map_append _ a b

/-- Normalization ignores leading and trailing whitespace padding. -/
theorem pyNormalize_pad {u v : List Char} (hu : ∀ ch ∈ u, pyIsSpace ch = true)
    (hv : ∀ ch ∈ v, pyIsSpace ch = true) (s : List Char) :
    pyNormalize (u ++ s ++ v) = pyNormalize s := by
  rw [pyNormalize, pyNormalize]
  have h : stripWS (collapseWS (replNBSP (u ++ s ++ v)))
      = stripWS (collapseWS (replNBSP s)) := by
    rw [List.append_assoc, replNBSP_append, replNBSP_append,
      stripcollapse_append_left (allspace_replNBSP hu),
      stripcollapse_append_right (allspace_replNBSP hv)]
  rw [h]

/-! ### C5: key symmetry -/

/-- C5: key symmetry: an inventory row and a demand row exposing the same
(sku, batch) pair — identical up to letter case and surrounding whitespace —
produce identical composite keys on the inventory side (`INV_KEY`) and on
the demand side (`OUT_KEY`): both sides are the same
normalize-then-concatenate-without-delimiter rule `concat_no_delim`. -/
theorem c5_key_symmetry (ti td : Table) (ri rd : TRow)
    (hisku : INV_SKU_COL ∈ ti.cols) (hibatch : INV_BATCH_COL ∈ ti.cols)
    (hosku : OUT_SKU_COL ∈ td.cols) (hobatch : OUT_BATCH_COL ∈ td.cols)
    (sku batch sku' batch' u1 v1 u2 v2 u1' v1' u2' v2' : List Char)
    (hu1 : ∀ ch ∈ u1, pyIsSpace ch = true) (hv1 : ∀ ch ∈ v1, pyIsSpace ch = true)
    (hu2 : ∀ ch ∈ u2, pyIsSpace ch = true) (hv2 : ∀ ch ∈ v2, pyIsSpace ch = true)
    (hu1' : ∀ ch ∈ u1', pyIsSpace ch = true) (hv1' : ∀ ch ∈ v1', pyIsSpace ch = true)
    (hu2' : ∀ ch ∈ u2', pyIsSpace ch = true) (hv2' : ∀ ch ∈ v2', pyIsSpace ch = true)
    (hgs : getCell ri INV_SKU_COL = some ((u1 ++ sku ++ v1).asString))
    (hgb : getCell ri INV_BATCH_COL = some ((u2 ++ batch ++ v2).asString))
    (hgs' : getCell rd OUT_SKU_COL = some ((u1' ++ sku' ++ v1').asString))
    (hgb' : getCell rd OUT_BATCH_COL = some ((u2' ++ batch' ++ v2').asString))
    (hcs : lowerL sku = lowerL sku') (hcb : lowerL batch = lowerL batch') :
    inv_key ti ri = out_key td rd := by
  rw [inv_key, if_pos ⟨hisku, hibatch⟩, out_key, if_pos ⟨hosku, hobatch⟩,
    concat_no_delim, concat_no_delim, hgs, hgb, hgs', hgb']
  simp only [normalize_cell, Option.getD_some]
  have h1 : pyNormalizeStr ((u1 ++ sku ++ v1).asString)
      = pyNormalizeStr ((u1' ++ sku' ++ v1').asString) := by
    rw [pyNormalizeStr, pyNormalizeStr, data_asString, data_asString,
      pyNormalize_pad hu1 hv1, pyNormalize_pad hu1' hv1', pyNormalize_lower_congr hcs]
  have h2 : pyNormalizeStr ((u2 ++ batch ++ v2).asString)
      = pyNormalizeStr ((u2' ++ batch' ++ v2').asString) := by
    rw [pyNormalizeStr, pyNormalizeStr, data_asString, data_asString,
      pyNormalize_pad hu2 hv2, pyNormalize_pad hu2' hv2', pyNormalize_lower_congr hcb]
  rw [h1, h2]

def rowC5Inv : TRow := [("Sku Code", some " S1 "), ("Batch", some "B1")]

def rowC5Dem : TRow := [("Sku", some "s1"), ("Batch Allocated", some " b1")]

def tblC5Inv : Table := { cols := ["Sku Code", "Batch"], rows := [rowC5Inv] }

def tblC5Dem : Table := { cols := ["Sku", "Batch Allocated"], rows := [rowC5Dem] }

/-- Witness for C5: `" S1 "`/`"B1"` on the inventory side and `"s1"`/`" b1"`
on the demand side give the same composite key. -/
theorem c5_key_symmetry_witness : inv_key tblC5Inv rowC5Inv = out_key tblC5Dem rowC5Dem :=
  c5_key_symmetry tblC5Inv tblC5Dem rowC5Inv rowC5Dem (by decide) (by decide) (by decide)
    (by decide) "S1".data "B1".data "s1".data "b1".data " ".data " ".data [] [] [] [] " ".data []
    (by decide) (by decide) (by decide) (by decide) (by decide) (by decide) (by decide)
    (by decide) (by decide) (by decide) (by decide) (by decide) (by decide) (by decide)

end ExcelAnalyzer
